import Mathlib

/-!
Verification development for the wdfw-high-lakes-history repository.

The repository is a set of Python scripts that scrape lake listings and
per-lake fish-stocking tables, merge the two datasets on a derived
county-elevation key, and flatten the nested result into tabular rows.
This file gives a shallow embedding of the pieces of those scripts that the
stated properties concern, and proves (or refutes) each property.

Modelling conventions:
- Python strings are modelled as Lean `String`/`List Char` over the ASCII
  fragment (the data in question is ASCII free text).
- Network and browser effects are modelled by oracles: an attempt-indexed
  outcome function for the per-lake scraper, and a page-indexed response
  function for the paginated enumerator.
- Python dicts parsed from JSON are modelled as association lists with
  Python `dict.update` semantics (existing keys keep their position and are
  overwritten, new keys are appended).
- `random.uniform(0, 1)` jitter is modelled as a caller-supplied function
  `Nat → ℚ`; floats are modelled by rationals.
-/

/-! ## Character and digit helpers -/

/-- ASCII whitespace, the characters matched by `\s` / `str.strip` on the
ASCII fragment. -/
def isSpaceChar (c : Char) : Bool :=
  c = ' ' || c = '\t' || c = '\n' || c = '\r' || c = '\x0b' || c = '\x0c'

/-- ASCII lower-casing, the fragment of Python `str.lower` relevant here. -/
def lowerChar (c : Char) : Char :=
  if 'A' ≤ c ∧ c ≤ 'Z' then Char.ofNat (c.toNat + 32) else c

/-- ASCII upper-casing, the fragment of Python `str.upper` relevant here. -/
def upperChar (c : Char) : Char :=
  if 'a' ≤ c ∧ c ≤ 'z' then Char.ofNat (c.toNat - 32) else c

/-- Python `str.strip()` on ASCII text. -/
def trimChars (cs : List Char) : List Char :=
  ((cs.dropWhile isSpaceChar).reverse.dropWhile isSpaceChar).reverse

/-- `county.strip().upper()` as used by `enrich_data`. -/
def trimUpperChars (s : String) : List Char :=
  (trimChars s.data).map upperChar

/-- The decimal digit character for `n % 10`-style values. -/
def digitChar : Nat → Char
  | 0 => '0' | 1 => '1' | 2 => '2' | 3 => '3' | 4 => '4'
  | 5 => '5' | 6 => '6' | 7 => '7' | 8 => '8' | 9 => '9'
  | _ => '0'

/-- Numeric value of an ASCII digit character. -/
def digitVal (c : Char) : Nat := c.toNat - 48

/-- Decimal digit characters of `n`, most significant first, with explicit
fuel so that the definition is structural (kernel-reducible). -/
def natDigitsAux : Nat → Nat → List Char
  | 0, _ => []
  | fuel + 1, n =>
    if n < 10 then [digitChar n]
    else natDigitsAux fuel (n / 10) ++ [digitChar (n % 10)]

/-- Decimal digit characters of `n`, the digits of Python `str(n)` for a
nonnegative `n` (`natDigitsAux` always has enough fuel at `n + 1`). -/
def natDigitsChars (n : Nat) : List Char := natDigitsAux (n + 1) n

/-- Zero-pad a decimal rendering to width `w`, as `"%04d"`-style formats do. -/
def padDigits (w : Nat) (n : Nat) : List Char :=
  let ds := natDigitsChars n
  List.replicate (w - ds.length) '0' ++ ds

/-- The first maximal run of digits in a string, the match of
`re.search(r'\d+', s)` in `enrich_data`. -/
def firstDigitRun : List Char → Option (List Char)
  | [] => none
  | c :: cs =>
    if c.isDigit then some (c :: cs.takeWhile Char.isDigit)
    else firstDigitRun cs

/-! ## Date normalization (`denormalizer.convert_date_to_iso`)

`datetime.strptime(date_string, '%B %d, %Y')` is modelled by
`parseMonthDayYear`: a case-insensitive full English month name, one or more
whitespace characters, a 1-2 digit day, a literal comma, one or more
whitespace characters, exactly four digits of year, end of string; the
parsed triple must denote a real calendar date (day within the month's
length, year at least 1). -/

/-- Full English month names with their month numbers, the `%B` alphabet. -/
def monthTable : List (List Char × Nat) :=
  [("january".data, 1), ("february".data, 2), ("march".data, 3),
   ("april".data, 4), ("may".data, 5), ("june".data, 6),
   ("july".data, 7), ("august".data, 8), ("september".data, 9),
   ("october".data, 10), ("november".data, 11), ("december".data, 12)]

/-- Case-insensitively remove the pattern `ps` from the front of `cs`,
returning the remainder on success. -/
def ciStrip : List Char → List Char → Option (List Char)
  | [], cs => some cs
  | _ :: _, [] => none
  | p :: ps, c :: cs => if lowerChar c = p then ciStrip ps cs else none

/-- Match one month name (`%B`) at the front of the input. -/
def matchMonth (cs : List Char) : Option (Nat × List Char) :=
  monthTable.foldr
    (fun nt acc =>
      match ciStrip nt.1 cs with
      | some rest => some (nt.2, rest)
      | none => acc)
    none

/-- Match one-or-more whitespace (a whitespace character in a `strptime`
format matches `\s+`). -/
def ws1 : List Char → Option (List Char)
  | [] => none
  | c :: cs => if isSpaceChar c then some (cs.dropWhile isSpaceChar) else none

/-- Gregorian leap-year rule used by `datetime`. -/
def isLeapYear (y : Nat) : Bool :=
  y % 4 = 0 && (y % 100 ≠ 0 || y % 400 = 0)

/-- Length of month `m` in year `y`, as `datetime` validates it. -/
def daysInMonth (y m : Nat) : Nat :=
  if m = 2 then (if isLeapYear y then 29 else 28)
  else if m = 4 ∨ m = 6 ∨ m = 9 ∨ m = 11 then 30
  else 31

/-- Numeric value of a digit run. -/
def digitsToNat (ds : List Char) : Nat :=
  ds.foldl (fun a c => a * 10 + digitVal c) 0

/-- `datetime.strptime(s, '%B %d, %Y')` followed by the constructor's
calendar validation, returning `(year, month, day)` on success. -/
def parseMonthDayYear (s : String) : Option (Nat × Nat × Nat) :=
  match matchMonth s.data with
  | none => none
  | some (m, r1) =>
    match ws1 r1 with
    | none => none
    | some r2 =>
      let dayDigits := r2.takeWhile Char.isDigit
      let r3 := r2.dropWhile Char.isDigit
      let d := digitsToNat dayDigits
      if dayDigits.length = 0 ∨ 2 < dayDigits.length ∨ d = 0 then none
      else
        match r3 with
        | ',' :: r4 =>
          match ws1 r4 with
          | none => none
          | some r5 =>
            match r5 with
            | [a, b, c, e] =>
              if a.isDigit && b.isDigit && c.isDigit && e.isDigit then
                let y := digitsToNat [a, b, c, e]
                if 1 ≤ y ∧ d ≤ daysInMonth y m then some (y, m, d) else none
              else none
            | _ => none
        | _ => none

/-- `date.isoformat()[:10]`: `YYYY-MM-DD` with zero padding. -/
def isoDateString (y m d : Nat) : String :=
  ⟨padDigits 4 y ++ '-' :: (padDigits 2 m ++ '-' :: padDigits 2 d)⟩

/-- `denormalizer.convert_date_to_iso`.  The second component records
whether the warning (`print` on the unparseable branch) was emitted.
An empty (falsy) input returns `None` without a warning; a parse success
returns the ISO date; a parse failure returns the input unchanged with a
warning. -/
def convert_date_to_iso (s : String) : Option String × Bool :=
  if s = "" then (none, false)
  else
    match parseMonthDayYear s with
    | some (y, m, d) => (some (isoDateString y m d), false)
    | none => (some s, true)

/-! ## Lake records and the merger (`enrich_data.py`) -/

/-- A lake record as produced by the enumerator: the seven scalar fields of
one row of the lake listing. -/
structure Lake where
  name : String
  url : String
  acres : String
  elevation : String
  county : String
  location_lat : String
  location_lon : String
deriving DecidableEq, Repr

/-- A fish-plant (stocking event) record from `wdfw_fish_plants.json`: the
two fields `enrich_data` reads, plus the rest of the record's fields as
uninterpreted payload. -/
structure Plant where
  county : String
  elevation : String
  rest : List (String × String)
deriving DecidableEq, Repr

/-- A lake together with its attached `plants` list (the only field the
merger adds). -/
structure LakeWith (α : Type) where
  base : Lake
  plants : List α
deriving DecidableEq, Repr

/-- Digit run with single interior underscores, the fragment of Python
`int()` digit grammar: first character must be a digit; an underscore must be
followed by a digit and may not lead, trail or double. -/
def pyDigitsGo : List Char → Nat → Option Nat
  | [], acc => some acc
  | c :: rest, acc =>
    if c = '_' then
      match rest with
      | [] => none
      | c2 :: rest2 =>
        if c2.isDigit then pyDigitsGo rest2 (acc * 10 + digitVal c2) else none
    else if c.isDigit then pyDigitsGo rest (acc * 10 + digitVal c)
    else none

/-- Value of a Python `int()` digit sequence (no sign). -/
def pyDigitsVal : List Char → Option Nat
  | [] => none
  | c :: rest =>
    if c.isDigit then pyDigitsGo rest (digitVal c) else none

/-- Python `int(s)` on an ASCII string: strip whitespace, optional sign,
digits (with legal underscores). -/
def pyIntParse (s : String) : Option Int :=
  match trimChars s.data with
  | '+' :: rest => (pyDigitsVal rest).map Int.ofNat
  | '-' :: rest => (pyDigitsVal rest).map (fun n => -(n : Int))
  | cs => (pyDigitsVal cs).map Int.ofNat

/-- Python `str(i)` for an integer: optional minus sign, then decimal
digits. -/
def intRenderChars (i : Int) : List Char :=
  (if i < 0 then ['-'] else []) ++ natDigitsChars i.natAbs

/-- `str(int(elevation.strip()))` for a plant's elevation field, `none` when
the field is empty or `int()` would raise `ValueError` (the record is then
skipped by the `except` clause / the truthiness guard). -/
def plantElevNorm (s : String) : Option (List Char) :=
  (pyIntParse s).map intRenderChars

/-- The join key `enrich_data` computes for one plant record
(`f"{county}-{elevation}"`), `none` when the record is excluded from the
lookup (empty county, or empty or non-numeric elevation). -/
def plantKeyChars (p : Plant) : Option (List Char) :=
  let county := trimUpperChars p.county
  match plantElevNorm p.elevation with
  | none => none
  | some elev =>
    if county ≠ [] ∧ elev ≠ [] then some (county ++ '-' :: elev) else none

/-- The digit part of a lake's key: the first digit run of the elevation
text, or empty when `re.search(r'\d+', ...)` finds none. -/
def lakeElevDigits (s : String) : List Char :=
  match firstDigitRun s.data with
  | some ds => ds
  | none => []

/-- The lookup key `enrich_data` computes for one lake
(`f"{lake_county}-{lake_elevation}"`); always constructed, even from empty
parts. -/
def lakeKeyChars (l : Lake) : List Char :=
  trimUpperChars l.county ++ '-' :: lakeElevDigits l.elevation

/-- `plants_lookup[key].append(plant)` with creation of a missing entry:
append `p` to the (first) entry for `k`, or add a new singleton entry. -/
def lkAdd : List (List Char × List Plant) → List Char → Plant →
    List (List Char × List Plant)
  | [], k, p => [(k, [p])]
  | (k', l) :: rest, k, p =>
    if k' = k then (k', l ++ [p]) :: rest else (k', l) :: lkAdd rest k p

/-- Dictionary lookup with the `[]` default that the
`if lookup_key in plants_lookup` / `else []` branch implements. -/
def lkGet : List (List Char × List Plant) → List Char → List Plant
  | [], _ => []
  | (k', l) :: rest, k => if k' = k then l else lkGet rest k

/-- Step 2 of `enrich_data`: fold the plant records into the key-indexed
lookup map, skipping records with no key. -/
def buildPlantsLookup (plants : List Plant) : List (List Char × List Plant) :=
  plants.foldl
    (fun m p =>
      match plantKeyChars p with
      | some k => lkAdd m k p
      | none => m)
    []

/-- Step 3 of `enrich_data`: attach to each lake, in input order, the list
of plants stored under its lookup key (empty when the key is absent). -/
def enrich_data (lakes : List Lake) (plants : List Plant) :
    List (LakeWith Plant) :=
  let lookup := buildPlantsLookup plants
  lakes.map (fun l => ⟨l, lkGet lookup (lakeKeyChars l)⟩)

/-! ## Per-lake fetch with retry (`get_high_lakes_plants.py`) -/

/-- Outcome of one attempt of `scrape_dynamic_table`'s loop body:
a `WebDriverException`/generic exception during navigation or rendering
(`fail`), a rendered page without the target `caption` (`noTable`), or a
rendered page whose table parses to the given rows (`table`). -/
inductive AttemptOutcome (α : Type)
  | fail
  | noTable
  | table (rows : List α)
deriving DecidableEq, Repr

/-- Observable result of `scrape_dynamic_table`: the return value (`none`
models the `return None` after exhaustion), the number of attempts
performed, and the list of backoff sleeps in order. -/
structure ScrapeResult (α : Type) where
  result : Option (List α)
  attempts : Nat
  delays : List ℚ
deriving DecidableEq, Repr

/-- The `for attempt in range(max_retries)` loop of `scrape_dynamic_table`:
a rendered page returns immediately (`[]` when the caption is missing, the
rows otherwise); a failure sleeps `base_delay * 2 ** attempt +
random.uniform(0, 1)` and moves to the next attempt; exhaustion returns
`None`. -/
def scrapeAux (oracle : Nat → AttemptOutcome α) (jitter : Nat → ℚ)
    (base_delay : ℚ) : Nat → Nat → ScrapeResult α
  | 0, _ => ⟨none, 0, []⟩
  | remaining + 1, attempt =>
    match oracle attempt with
    | .noTable => ⟨some [], 1, []⟩
    | .table rows => ⟨some rows, 1, []⟩
    | .fail =>
      let d := base_delay * 2 ^ attempt + jitter attempt
      let restR := scrapeAux oracle jitter base_delay remaining (attempt + 1)
      ⟨restR.result, restR.attempts + 1, d :: restR.delays⟩

/-- `scrape_dynamic_table(url, lake_name, county_name, max_retries=3,
base_delay=1)` with the page interaction abstracted into `oracle` and the
`random.uniform(0, 1)` draws into `jitter`. -/
def scrape_dynamic_table (oracle : Nat → AttemptOutcome α)
    (jitter : Nat → ℚ) (max_retries : Nat := 3) (base_delay : ℚ := 1) :
    ScrapeResult α :=
  scrapeAux oracle jitter base_delay max_retries 0

/-- `fetch_lake_data(lake, max_retries=5, base_delay=1)`: calls
`scrape_dynamic_table` with that function's own defaults and returns a copy
of the lake with `plants` set to the scraped rows, or `[]` when the scrape
returned `None` (exhaustion) or `[]` (missing table) — the truthiness of
`scraped_data if scraped_data else []`.  The function's own retry loop
returns on its first iteration because `scrape_dynamic_table` catches every
fetch failure internally, so its `max_retries=5` loop never re-runs for a
fetch failure; this embedding therefore evaluates the body once. -/
def fetch_lake_data (lake : Lake) (oracle : Nat → AttemptOutcome α)
    (jitter : Nat → ℚ) : LakeWith α :=
  { base := lake
    plants :=
      match (scrape_dynamic_table oracle jitter).result with
      | some rows => if rows.isEmpty then [] else rows
      | none => [] }

/-- The `main` dispatcher of `get_high_lakes_plants.py`: every lake is
submitted to the pool (`executor.submit(fetch_lake_data, lake)`), and
`as_completed` yields each future exactly once, in an arbitrary completion
order; `order` lists the input indices in that completion order. -/
def runDispatcher (lakes : List Lake)
    (oracles : Nat → Nat → AttemptOutcome α) (jitters : Nat → Nat → ℚ)
    (order : List (Fin lakes.length)) : List (LakeWith α) :=
  order.map (fun i => fetch_lake_data (lakes.get i) (oracles i) (jitters i))

/-! ## Paginated enumerator (`scrape_lakes_per_county`) -/

/-- One fetched listing page, as `scrape_lakes_per_county` classifies it:
a request error, a response without a `table` element, or a table whose
body parses to `rows` with or without a `pager__item--next` link.  Row
parsing itself is a boundary concern and the rows arrive pre-parsed. -/
inductive PageResp (α : Type)
  | err
  | noTable
  | page (rows : List α) (hasNext : Bool)
deriving DecidableEq, Repr

/-- Whether the loop stops on this response (anything except a page with
rows and a next link). -/
def stopsPage : PageResp α → Bool
  | .err => true
  | .noTable => true
  | .page rows hasNext => rows.isEmpty || !hasNext

/-- Rows contributed by a page the loop continues past. -/
def contRows : PageResp α → List α
  | .page rows true => rows
  | _ => []

/-- Rows contributed by the stopping page itself: a page whose rows were
appended before the missing next link broke the loop; error, missing table
and empty-row pages contribute nothing. -/
def stopContrib : PageResp α → List α
  | .page rows false => rows
  | _ => []

/-- The rows the loop accumulates when the first stopping page is `n` pages
after `start`. -/
def expectedRows (resp : Nat → PageResp α) (start : Nat) : Nat → List α
  | 0 => stopContrib (resp start)
  | n + 1 => contRows (resp start) ++ expectedRows resp (start + 1) n

/-- The `while True` pagination loop of `scrape_lakes_per_county`, with
explicit fuel: `none` means the fuel ran out before the loop would have
stopped (the code itself has no bound and would still be running). -/
def scrapeLakesFuel (resp : Nat → PageResp α) :
    Nat → Nat → List α → Option (List α)
  | 0, _, _ => none
  | fuel + 1, page, acc =>
    match resp page with
    | .err => some acc
    | .noTable => some acc
    | .page rows hasNext =>
      if rows.isEmpty then some acc
      else if hasNext then scrapeLakesFuel resp fuel (page + 1) (acc ++ rows)
      else some (acc ++ rows)

/-- `scrape_lakes_per_county(county_id)` for a given page oracle, starting
at page 0 with an empty accumulator. -/
def scrape_lakes_per_county (resp : Nat → PageResp α) (fuel : Nat) :
    Option (List α) :=
  scrapeLakesFuel resp fuel 0 []

/-! ## Flattener (`denormalizer.denormalize_and_save_to_json`) -/

/-- A JSON leaf value as the flattener handles it: `null` or a string. -/
inductive JVal
  | null
  | str (s : String)
deriving DecidableEq, Repr

/-- A JSON object in insertion order, the model of a Python dict. -/
abbrev Row := List (String × JVal)

/-- Dict lookup (first matching key). -/
def getVal : Row → String → Option JVal
  | [], _ => none
  | (k', v) :: r, k => if k' = k then some v else getVal r k

/-- `key in dict`. -/
def rowHas (r : Row) (k : String) : Bool :=
  (getVal r k).isSome

/-- `dict[k] = v` for a key already present: overwrite in place, keeping
position (JSON objects have unique keys, so mapping every match is the
same). -/
def setVal (r : Row) (k : String) (v : JVal) : Row :=
  r.map (fun kv => if kv.1 = k then (k, v) else kv)

/-- Python `dict.update`: existing keys are overwritten in place, new keys
are appended in the argument's order. -/
def dictUpdate (base upd : Row) : Row :=
  upd.foldl
    (fun acc kv =>
      if rowHas acc kv.1 then setVal acc kv.1 kv.2 else acc ++ [kv])
    base

/-- An input lake object as the flattener reads it: the seven scalar fields
(`lake.get(...)`, so `null` when absent) and the `plants` list of event
objects. -/
structure NLake where
  name : JVal
  url : JVal
  acres : JVal
  elevation : JVal
  county : JVal
  location_lat : JVal
  location_lon : JVal
  plants : List Row
deriving DecidableEq, Repr

/-- `base_info`: the seven scalar fields in the code's order. -/
def baseInfo (l : NLake) : Row :=
  [("name", l.name), ("url", l.url), ("acres", l.acres),
   ("elevation", l.elevation), ("county", l.county),
   ("location_lat", l.location_lat), ("location_lon", l.location_lon)]

/-- The five null event fields added when a lake has no plants. -/
def nullPlantFields : Row :=
  [("stock_date", .null), ("species", .null), ("number_released", .null),
   ("number_of_fish_per_pound", .null), ("facility", .null)]

/-- The seven scalar keys of `base_info`. -/
def baseKeys : List String :=
  ["name", "url", "acres", "elevation", "county",
   "location_lat", "location_lon"]

/-- The string `convert_date_to_iso` leaves in `row['stock_date']` for a
truthy input: the ISO form on parse success, the input unchanged on
failure (the `None` branch is unreachable for a truthy input). -/
def convertStr (s : String) : String :=
  match parseMonthDayYear s with
  | some (y, m, d) => isoDateString y m d
  | none => s

/-- The `stock_date` conversion step: applied only when the key is present
and its value truthy (a nonempty string). -/
def stockConv (r : Row) : Row :=
  match getVal r "stock_date" with
  | some (.str s) =>
    if s = "" then r else setVal r "stock_date" (.str (convertStr s))
  | _ => r

/-- Rows produced for one lake: one row of nulls when `plants` is falsy,
otherwise one row per plant, each the lake's `base_info` updated with the
plant object and then date-converted. -/
def flattenLake (l : NLake) : List Row :=
  if l.plants.isEmpty then [dictUpdate (baseInfo l) nullPlantFields]
  else l.plants.map (fun p => stockConv (dictUpdate (baseInfo l) p))

/-- `denormalize_and_save_to_json` after a successful read: flatten every
lake in order; `none` models the early `return` that skips creating the
output file when no rows were produced, `some rows` models writing `rows`. -/
def denormalize_and_save_to_json (lakes : List NLake) : Option (List Row) :=
  let rows := lakes.flatMap flattenLake
  if rows.isEmpty then none else some rows

/-! ## Stated properties, as predicates -/

/-- The dispatcher contract of claim C1: one output entry per input lake
(the output is a permutation of the per-lake fetch results, so nothing is
dropped and nothing is duplicated), and no lake's page fetch is attempted
more than the retry cap many times. -/
def DispatcherSpec {α : Type} (lakes : List Lake)
    (oracles : Nat → Nat → AttemptOutcome α) (jitters : Nat → Nat → ℚ)
    (order : List (Fin lakes.length)) : Prop :=
  (runDispatcher lakes oracles jitters order).length = lakes.length ∧
  (runDispatcher lakes oracles jitters order).Perm
    ((List.finRange lakes.length).map
      (fun i => fetch_lake_data (lakes.get i) (oracles i) (jitters i))) ∧
  ∀ i mr bd, (scrape_dynamic_table (oracles i) (jitters i) mr bd).attempts ≤ mr

/-- The all-attempts-fail behaviour of `scrape_dynamic_table`: `None` after
exactly `mr` attempts, with one backoff sleep per attempt of
`bd * 2 ^ attempt + jitter attempt` seconds, whose total splits into the
geometric base part plus the jitter part. -/
def FailAllScrapeSpec {α : Type} (oracle : Nat → AttemptOutcome α)
    (jitter : Nat → ℚ) (mr : Nat) (bd : ℚ) : Prop :=
  (scrape_dynamic_table oracle jitter mr bd).result = none ∧
  (scrape_dynamic_table oracle jitter mr bd).attempts = mr ∧
  (scrape_dynamic_table oracle jitter mr bd).delays =
    (List.range mr).map (fun i => bd * 2 ^ i + jitter i) ∧
  (scrape_dynamic_table oracle jitter mr bd).delays.sum =
    ((List.range mr).map (fun i => bd * 2 ^ i)).sum +
      ((List.range mr).map (fun i => jitter i)).sum

/-- The merger contract of claim C4: one output entry per lake; each lake
receives exactly the plant records whose key string equals its own lookup
key; a plant with no key (empty county, empty or non-numeric elevation) is
attached to no lake; a lake with an empty normalized county or a digitless
elevation receives an empty list. -/
def EnrichSpec (lakes : List Lake) (plants : List Plant) : Prop :=
  (enrich_data lakes plants).length = lakes.length ∧
  (∀ i (h : i < lakes.length),
    (enrich_data lakes plants)[i]? =
      some ⟨lakes.get ⟨i, h⟩,
        plants.filter
          (fun p => plantKeyChars p = some (lakeKeyChars (lakes.get ⟨i, h⟩)))⟩) ∧
  (∀ p ∈ plants, plantKeyChars p = none →
    ∀ e ∈ enrich_data lakes plants, p ∉ e.plants) ∧
  (∀ i (h : i < lakes.length),
    (trimUpperChars (lakes.get ⟨i, h⟩).county = [] ∨
        firstDigitRun (lakes.get ⟨i, h⟩).elevation.data = none) →
    (enrich_data lakes plants)[i]? = some ⟨lakes.get ⟨i, h⟩, []⟩)

/-- The frame property of claim C9: the merger keeps one record per input
lake, in input order, and every field other than the added `plants` is the
input lake's field unchanged. -/
def EnrichFrameSpec (lakes : List Lake) (plants : List Plant) : Prop :=
  (enrich_data lakes plants).length = lakes.length ∧
  ∀ i (h : i < lakes.length),
    ((enrich_data lakes plants)[i]?).map LakeWith.base =
      some (lakes.get ⟨i, h⟩)

/-- The flattener behaviour of claim C5, amended to the code's
`row.update(plant)` semantics: at least one row per lake; a lake without
events yields exactly the one null-event row; a lake with events yields one
row per event, and a scalar field keeps the lake's value in every row whose
event object does not itself contain that key. -/
def FlattenSpec (l : NLake) : Prop :=
  flattenLake l ≠ [] ∧
  (flattenLake l).length = max 1 l.plants.length ∧
  (l.plants = [] → flattenLake l = [baseInfo l ++ nullPlantFields]) ∧
  (l.plants ≠ [] →
    flattenLake l = l.plants.map (fun p => stockConv (dictUpdate (baseInfo l) p))) ∧
  (∀ p ∈ l.plants, ∀ k ∈ baseKeys, (∀ kv ∈ p, kv.1 ≠ k) →
    getVal (stockConv (dictUpdate (baseInfo l) p)) k = getVal (baseInfo l) k)

/-! ## Theorems -/

/-- C6: an empty input is the only way to get `None`; a parse success maps
to the ISO string silently; any unparseable non-empty string comes back
unchanged with the warning emitted.  Never fatal: the function is total. -/
theorem convert_date_reports (s : String) (hs : s ≠ "") :
    (∀ y m d, parseMonthDayYear s = some (y, m, d) →
      convert_date_to_iso s = (some (isoDateString y m d), false)) ∧
    (parseMonthDayYear s = none → convert_date_to_iso s = (some s, true)) := by
  refine ⟨fun y m d h => ?_, fun h => ?_⟩ <;> simp [convert_date_to_iso, hs, h]

theorem convert_date_reports_witness :
    convert_date_to_iso "July 1, 2025" = (some (isoDateString 2025 7 1), false) ∧
    isoDateString 2025 7 1 = "2025-07-01" ∧
    convert_date_to_iso "not a date" = (some "not a date", true) :=
  ⟨(convert_date_reports "July 1, 2025" (by decide)).1 2025 7 1 (by decide),
   by decide,
   (convert_date_reports "not a date" (by decide)).2 (by decide)⟩

/-- C10: flattening an empty input array produces no rows and the function
returns without writing the output file; whenever the file is written, the
written row list is nonempty. -/
theorem denormalize_writes_only_nonempty :
    denormalize_and_save_to_json [] = none ∧
    ∀ lakes rows, denormalize_and_save_to_json lakes = some rows →
      rows ≠ [] := by
  refine ⟨rfl, fun lakes rows h => ?_⟩
  unfold denormalize_and_save_to_json at h
  by_cases he : (lakes.flatMap flattenLake).isEmpty
  · simp [he] at h
  · simp [he] at h
    subst h
    simpa [List.isEmpty_iff] using he

theorem denormalize_writes_only_nonempty_witness :
    denormalize_and_save_to_json
        [⟨JVal.null, .null, .null, .null, .null, .null, .null, []⟩] =
      some [dictUpdate
        (baseInfo ⟨JVal.null, .null, .null, .null, .null, .null, .null, []⟩)
        nullPlantFields] ∧
    [dictUpdate
        (baseInfo ⟨JVal.null, .null, .null, .null, .null, .null, .null, []⟩)
        nullPlantFields] ≠ ([] : List Row) :=
  ⟨rfl, denormalize_writes_only_nonempty.2
    [⟨JVal.null, .null, .null, .null, .null, .null, .null, []⟩]
    [dictUpdate
      (baseInfo ⟨JVal.null, .null, .null, .null, .null, .null, .null, []⟩)
      nullPlantFields] rfl⟩

theorem scrapeLakesFuel_stops (resp : Nat → PageResp α) :
    ∀ n start acc fuel, stopsPage (resp (start + n)) = true →
      (∀ m, m < n → stopsPage (resp (start + m)) = false) →
      n < fuel →
      scrapeLakesFuel resp fuel start acc =
        some (acc ++ expectedRows resp start n) := by
  intro n
  induction n with
  | zero =>
    intro start acc fuel h1 _ hf
    obtain ⟨f, rfl⟩ : ∃ f, fuel = f + 1 := ⟨fuel - 1, by omega⟩
    rw [Nat.add_zero] at h1
    cases hr : resp start with
    | err => simp [scrapeLakesFuel, hr, expectedRows, stopContrib]
    | noTable => simp [scrapeLakesFuel, hr, expectedRows, stopContrib]
    | page rows hasNext =>
      rw [hr] at h1
      cases hasNext with
      | true =>
        have hrows : rows.isEmpty = true := by
          simpa [stopsPage] using h1
        simp [scrapeLakesFuel, hr, hrows, expectedRows, stopContrib]
      | false =>
        by_cases hrows : rows.isEmpty
        · have : rows = [] := by simpa [List.isEmpty_iff] using hrows
          simp [scrapeLakesFuel, hr, hrows, expectedRows, stopContrib, this]
        · simp [scrapeLakesFuel, hr, hrows, expectedRows, stopContrib]
  | succ n ih =>
    intro start acc fuel h1 h2 hf
    obtain ⟨f, rfl⟩ : ∃ f, fuel = f + 1 := ⟨fuel - 1, by omega⟩
    have h0 : stopsPage (resp start) = false := by
      simpa using h2 0 (by omega)
    cases hr : resp start with
    | err => rw [hr] at h0; simp [stopsPage] at h0
    | noTable => rw [hr] at h0; simp [stopsPage] at h0
    | page rows hasNext =>
      rw [hr] at h0
      have hne : rows.isEmpty = false ∧ hasNext = true := by
        cases hasNext
        · simp [stopsPage] at h0
        · simp [stopsPage] at h0
          simp [h0]
      obtain ⟨hrows, rfl⟩ := hne
      have step : scrapeLakesFuel resp (f + 1) start acc =
          scrapeLakesFuel resp f (start + 1) (acc ++ rows) := by
        simp [scrapeLakesFuel, hr, hrows]
      rw [step, ih (start + 1) (acc ++ rows) f
        (by rw [show start + 1 + n = start + (n + 1) by omega]; exact h1)
        (fun m hm => by
          rw [show start + 1 + m = start + (m + 1) by omega]
          exact h2 (m + 1) (by omega))
        (by omega)]
      simp [expectedRows, hr, contRows, List.append_assoc]

theorem scrapeLakesFuel_diverges (resp : Nat → PageResp α)
    (h : ∀ m, stopsPage (resp m) = false) :
    ∀ fuel start acc, scrapeLakesFuel resp fuel start acc = none := by
  intro fuel
  induction fuel with
  | zero => intro start acc; rfl
  | succ f ih =>
    intro start acc
    have h0 := h start
    cases hr : resp start with
    | err => rw [hr] at h0; simp [stopsPage] at h0
    | noTable => rw [hr] at h0; simp [stopsPage] at h0
    | page rows hasNext =>
      rw [hr] at h0
      have hne : rows.isEmpty = false ∧ hasNext = true := by
        cases hasNext
        · simp [stopsPage] at h0
        · simp [stopsPage] at h0
          simp [h0]
      obtain ⟨hrows, rfl⟩ := hne
      simp [scrapeLakesFuel, hr, hrows, ih]

/-- C8: the pagination loop stops exactly at the first page that errors,
has no table, parses to zero rows, or lacks a next link: given such a page
it terminates (for any sufficient fuel) with one record per row parsed from
the pages fetched before stopping (including the rows of a final page whose
next link is missing), and if no page ever satisfies the stopping
condition the loop never terminates (no fuel suffices). -/
theorem pagination_stops_exactly :
    (∀ (α : Type) (resp : Nat → PageResp α) (n fuel : Nat),
      stopsPage (resp n) = true →
      (∀ m, m < n → stopsPage (resp m) = false) →
      n < fuel →
      scrape_lakes_per_county resp fuel = some (expectedRows resp 0 n)) ∧
    (∀ (α : Type) (resp : Nat → PageResp α),
      (∀ m, stopsPage (resp m) = false) →
      ∀ fuel, scrape_lakes_per_county resp fuel = none) := by
  constructor
  · intro α resp n fuel h1 h2 hf
    have := scrapeLakesFuel_stops resp n 0 [] fuel
      (by simpa using h1) (by simpa using h2) hf
    simpa [scrape_lakes_per_county] using this
  · intro α resp h fuel
    exact scrapeLakesFuel_diverges resp h fuel 0 []

theorem pagination_stops_exactly_witness :
    scrape_lakes_per_county
        (fun i => if i = 0 then PageResp.page [0] true else PageResp.noTable)
        2 =
      some (expectedRows
        (fun i => if i = 0 then PageResp.page [0] true else PageResp.noTable)
        0 1) ∧
    scrape_lakes_per_county (fun _ => PageResp.page [0] true) 5 =
      (none : Option (List Nat)) :=
  ⟨pagination_stops_exactly.1 Nat _ 1 2 (by decide)
      (fun m hm => by interval_cases m; decide) (by omega),
   pagination_stops_exactly.2 Nat (fun _ => PageResp.page [0] true)
     (fun m => rfl) 5⟩

theorem scrapeAux_attempts_le {α : Type} (oracle : Nat → AttemptOutcome α)
    (jitter : Nat → ℚ) (bd : ℚ) :
    ∀ r a, (scrapeAux oracle jitter bd r a).attempts ≤ r := by
  intro r
  induction r with
  | zero => intro a; simp [scrapeAux]
  | succ r ih =>
    intro a
    cases h : oracle a with
    | fail =>
      have := ih (a + 1)
      simp [scrapeAux, h]
      omega
    | noTable => simp [scrapeAux, h]
    | table rows => simp [scrapeAux, h]

theorem scrapeAux_failAll {α : Type} (oracle : Nat → AttemptOutcome α)
    (jitter : Nat → ℚ) (bd : ℚ) (h : ∀ i, oracle i = .fail) :
    ∀ r a, scrapeAux oracle jitter bd r a =
      ⟨none, r, (List.range r).map (fun i => bd * 2 ^ (a + i) + jitter (a + i))⟩ := by
  intro r
  induction r with
  | zero => intro a; simp [scrapeAux]
  | succ r ih =>
    intro a
    have harr : (List.range (r + 1)).map
          (fun i => bd * 2 ^ (a + i) + jitter (a + i)) =
        (bd * 2 ^ a + jitter a) ::
          (List.range r).map
            (fun i => bd * 2 ^ (a + 1 + i) + jitter (a + 1 + i)) := by
      rw [List.range_succ_eq_map, List.map_cons, List.map_map]
      refine congrArg₂ _ (by simp) ?_
      refine List.map_congr_left ?_
      intro i _
      simp only [Function.comp_apply]
      rw [show a + (i + 1) = a + 1 + i from by omega]
    rw [harr]
    simp [scrapeAux, h a, ih (a + 1)]

theorem sum_map_add_split (l : List Nat) (f g : Nat → ℚ) :
    (l.map (fun i => f i + g i)).sum = (l.map f).sum + (l.map g).sum := by
  induction l with
  | nil => simp
  | cons a l ih => simp [ih]; ring

theorem sum_map_unit_interval (l : List Nat) (g : Nat → ℚ)
    (hg : ∀ i, 0 ≤ g i ∧ g i < 1) :
    0 ≤ (l.map g).sum ∧ (l.map g).sum ≤ (l.length : ℚ) ∧
      (l ≠ [] → (l.map g).sum < (l.length : ℚ)) := by
  induction l with
  | nil => simp
  | cons a l ih =>
    obtain ⟨h0, h1, _⟩ := ih
    obtain ⟨ha0, ha1⟩ := hg a
    refine ⟨by simp; linarith, ?_, fun _ => ?_⟩ <;>
      · simp [List.sum_cons]
        linarith

/-- C1: every submitted lake yields exactly one entry of the dispatcher's
output — the collected results (in completion order) are a permutation of
the per-lake fetch results, so the output has exactly N entries with no
omission and no duplication — and no lake's page fetch runs more than the
retry cap many attempts, however its attempts fail. -/
theorem dispatcher_one_result_per_lake {α : Type} (lakes : List Lake)
    (oracles : Nat → Nat → AttemptOutcome α) (jitters : Nat → Nat → ℚ)
    (order : List (Fin lakes.length))
    (hperm : order.Perm (List.finRange lakes.length)) :
    DispatcherSpec lakes oracles jitters order := by
  refine ⟨?_, hperm.map _, ?_⟩
  · simp [runDispatcher, hperm.length_eq]
  · intro i mr bd
    exact scrapeAux_attempts_le (oracles i) (jitters i) bd mr 0

theorem dispatcher_one_result_per_lake_witness :
    DispatcherSpec (α := Nat)
      [⟨"Alpine", "u1", "5", "100 feet", "King", "", ""⟩,
       ⟨"Blue", "u2", "7", "200 feet", "Pierce", "", ""⟩]
      (fun _ _ => AttemptOutcome.table [1]) (fun _ _ => 0)
      [⟨1, by decide⟩, ⟨0, by decide⟩] :=
  dispatcher_one_result_per_lake _ _ _ _ (by decide)

/-- C2: a lake all of whose fetch attempts fail is still returned, with the
lake's own fields and an empty `plants` list; it is therefore present in
the dispatcher's output, and which outcomes another lake's attempts have
does not change the entries produced for the other lakes (so the failure
neither aborts the run nor affects a sibling's result). -/
theorem failed_lake_present_with_empty_plants :
    (∀ (α : Type) (lake : Lake) (oracle : Nat → AttemptOutcome α)
        (jitter : Nat → ℚ), (∀ a, oracle a = .fail) →
      fetch_lake_data lake oracle jitter = ⟨lake, []⟩) ∧
    (∀ (α : Type) (lakes : List Lake)
        (oracles : Nat → Nat → AttemptOutcome α) (jitters : Nat → Nat → ℚ)
        (order : List (Fin lakes.length)) (i : Fin lakes.length),
      i ∈ order → (∀ a, oracles i a = .fail) →
      (⟨lakes.get i, []⟩ : LakeWith α) ∈
        runDispatcher lakes oracles jitters order) ∧
    (∀ (α : Type) (lakes : List Lake)
        (oracles oracles2 : Nat → Nat → AttemptOutcome α)
        (jitters : Nat → Nat → ℚ) (order : List (Fin lakes.length))
        (i : Nat), (∀ j, j ≠ i → oracles2 j = oracles j) →
      ∀ (k : Nat) (idx : Fin lakes.length), order[k]? = some idx →
        (idx : Nat) ≠ i →
        (runDispatcher lakes oracles2 jitters order)[k]? =
          (runDispatcher lakes oracles jitters order)[k]?) := by
  have base : ∀ (α : Type) (lake : Lake) (oracle : Nat → AttemptOutcome α)
      (jitter : Nat → ℚ), (∀ a, oracle a = .fail) →
      fetch_lake_data lake oracle jitter = ⟨lake, []⟩ := by
    intro α lake oracle jitter h
    have hres : (scrape_dynamic_table oracle jitter).result = none := by
      rw [show scrape_dynamic_table oracle jitter = scrapeAux oracle jitter 1 3 0
        from rfl, scrapeAux_failAll oracle jitter 1 h 3 0]
    simp [fetch_lake_data, hres]
  refine ⟨base, ?_, ?_⟩
  · intro α lakes oracles jitters order i hi hfail
    have : fetch_lake_data (lakes.get i) (oracles i) (jitters i) =
        ⟨lakes.get i, []⟩ := base α _ _ _ hfail
    rw [← this]
    exact List.mem_map_of_mem _ hi
  · intro α lakes oracles oracles2 jitters order i hagree k idx hk hne
    simp only [runDispatcher, List.getElem?_map, hk, Option.map_some']
    rw [hagree idx hne]

theorem failed_lake_present_with_empty_plants_witness :
    fetch_lake_data (α := Nat) ⟨"A", "u", "1", "100 feet", "King", "", ""⟩
        (fun _ => AttemptOutcome.fail) (fun _ => 0) =
      ⟨⟨"A", "u", "1", "100 feet", "King", "", ""⟩, []⟩ ∧
    (⟨⟨"A", "u", "1", "100 feet", "King", "", ""⟩, []⟩ : LakeWith Nat) ∈
      runDispatcher [⟨"A", "u", "1", "100 feet", "King", "", ""⟩]
        (fun _ _ => AttemptOutcome.fail) (fun _ _ => 0) [⟨0, by decide⟩] :=
  ⟨failed_lake_present_with_empty_plants.1 Nat
      ⟨"A", "u", "1", "100 feet", "King", "", ""⟩
      (fun _ => AttemptOutcome.fail) (fun _ => 0) (fun a => rfl),
   failed_lake_present_with_empty_plants.2.1 Nat
      [⟨"A", "u", "1", "100 feet", "King", "", ""⟩]
      (fun _ _ => AttemptOutcome.fail) (fun _ _ => 0)
      [⟨0, by decide⟩] ⟨0, by decide⟩ (by decide) (fun a => rfl)⟩

/-- C3: when the page renders but the target table's caption is absent on
the first attempt, `scrape_dynamic_table` returns the successful empty
result `[]` after exactly one attempt with no backoff sleep (zero retries),
and the lake's `plants` comes out empty; more generally a retry (a backoff
sleep) happens only when the attempt raised a navigation/rendering error —
any non-failure first outcome ends the loop at one attempt with no sleep. -/
theorem missing_table_is_empty_success :
    (∀ (α : Type) (oracle : Nat → AttemptOutcome α) (jitter : Nat → ℚ),
      oracle 0 = .noTable →
      scrape_dynamic_table oracle jitter = ⟨some [], 1, []⟩ ∧
      ∀ lake, fetch_lake_data lake oracle jitter = ⟨lake, []⟩) ∧
    (∀ (α : Type) (oracle : Nat → AttemptOutcome α) (jitter : Nat → ℚ)
        (mr : Nat) (bd : ℚ), oracle 0 ≠ .fail →
      (scrape_dynamic_table oracle jitter mr bd).delays = [] ∧
      (scrape_dynamic_table oracle jitter mr bd).attempts ≤ 1) := by
  constructor
  · intro α oracle jitter h
    constructor
    · simp [scrape_dynamic_table, scrapeAux, h]
    · intro lake
      simp [fetch_lake_data, scrape_dynamic_table, scrapeAux, h]
  · intro α oracle jitter mr bd h
    cases mr with
    | zero => simp [scrape_dynamic_table, scrapeAux]
    | succ mr =>
      cases ho : oracle 0 with
      | fail => exact absurd ho h
      | noTable => simp [scrape_dynamic_table, scrapeAux, ho]
      | table rows => simp [scrape_dynamic_table, scrapeAux, ho]

theorem missing_table_is_empty_success_witness :
    (scrape_dynamic_table (α := Nat) (fun _ => AttemptOutcome.noTable)
        (fun _ => 0) = ⟨some [], 1, []⟩) ∧
    fetch_lake_data (α := Nat) ⟨"A", "u", "1", "100 feet", "King", "", ""⟩
        (fun _ => AttemptOutcome.noTable) (fun _ => 0) =
      ⟨⟨"A", "u", "1", "100 feet", "King", "", ""⟩, []⟩ :=
  ⟨(missing_table_is_empty_success.1 Nat (fun _ => AttemptOutcome.noTable)
      (fun _ => 0) rfl).1,
   (missing_table_is_empty_success.1 Nat (fun _ => AttemptOutcome.noTable)
      (fun _ => 0) rfl).2 ⟨"A", "u", "1", "100 feet", "King", "", ""⟩⟩

/-- C7 counterexample: under the defaults actually used by the pipeline
(`fetch_lake_data` calls `scrape_dynamic_table` with that function's own
defaults), an always-failing lake's fetch performs 3 attempts, not 5: the
claimed default of 5 does not govern the per-item fetch retries. -/
theorem scrape_default_retries_cex :
    ¬ ((scrape_dynamic_table (α := Unit) (fun _ => AttemptOutcome.fail)
        (fun _ => 1/2)).attempts = 5) := by
  decide

/-- C7 amended: the retry loop that governs per-item fetch attempts is
`scrape_dynamic_table`'s, whose `max_retries` defaults to 3 (not 5 — the
outer `fetch_lake_data` declares 5 but its loop body cannot raise once the
inner loop has absorbed the failure); for any cap, an item failing all
attempts sleeps `base_delay * 2 ^ attempt + jitter attempt` before each
retry, the total backoff splits into the geometric sum plus the jitter sum,
and with jitter drawn from [0, 1) the total lies in
[sum of base_delay * 2 ^ i, that sum + max_retries). -/
theorem scrape_backoff_amended :
    (∀ (α : Type) (oracle : Nat → AttemptOutcome α) (jitter : Nat → ℚ)
        (mr : Nat) (bd : ℚ), (∀ i, oracle i = .fail) →
      FailAllScrapeSpec oracle jitter mr bd) ∧
    (∀ (α : Type) (oracle : Nat → AttemptOutcome α) (jitter : Nat → ℚ),
      scrape_dynamic_table oracle jitter = scrapeAux oracle jitter 1 3 0) ∧
    (∀ (α : Type) (oracle : Nat → AttemptOutcome α) (jitter : Nat → ℚ)
        (mr : Nat) (bd : ℚ), 0 < mr → (∀ i, 0 ≤ jitter i ∧ jitter i < 1) →
      (∀ i, oracle i = .fail) →
      ((List.range mr).map (fun i => bd * 2 ^ i)).sum ≤
          (scrape_dynamic_table oracle jitter mr bd).delays.sum ∧
      (scrape_dynamic_table oracle jitter mr bd).delays.sum <
          ((List.range mr).map (fun i => bd * 2 ^ i)).sum + (mr : ℚ)) := by
  have part1 : ∀ (α : Type) (oracle : Nat → AttemptOutcome α)
      (jitter : Nat → ℚ) (mr : Nat) (bd : ℚ), (∀ i, oracle i = .fail) →
      FailAllScrapeSpec oracle jitter mr bd := by
    intro α oracle jitter mr bd h
    have hrun := scrapeAux_failAll oracle jitter bd h mr 0
    refine ⟨?_, ?_, ?_, ?_⟩ <;>
      simp [FailAllScrapeSpec, scrape_dynamic_table, hrun, sum_map_add_split]
  refine ⟨part1, fun α oracle jitter => rfl, ?_⟩
  intro α oracle jitter mr bd hmr hj h
  obtain ⟨-, -, -, hsum⟩ := part1 α oracle jitter mr bd h
  have hrange : (List.range mr) ≠ [] := by
    simpa using Nat.pos_iff_ne_zero.mp hmr
  obtain ⟨hj0, -, hjlt⟩ := sum_map_unit_interval (List.range mr) jitter hj
  have hlen : ((List.range mr).length : ℚ) = (mr : ℚ) := by simp
  rw [hsum]
  constructor
  · linarith
  · have := hjlt hrange
    rw [hlen] at this
    linarith

theorem scrape_backoff_amended_witness :
    FailAllScrapeSpec (α := Unit) (fun _ => AttemptOutcome.fail)
      (fun _ => 1/2) 3 1 :=
  scrape_backoff_amended.1 Unit (fun _ => AttemptOutcome.fail)
    (fun _ => 1/2) 3 1 (fun _ => rfl)

theorem digitChar_isDigit (n : Nat) : (digitChar n).isDigit = true := by
  unfold digitChar
  split <;> decide

theorem digitChar_ne_dash (n : Nat) : digitChar n ≠ '-' := by
  unfold digitChar
  split <;> decide

theorem natDigitsAux_ne_nil (f n : Nat) : natDigitsAux (f + 1) n ≠ [] := by
  unfold natDigitsAux
  split <;> simp

theorem natDigitsAux_getLast (f n : Nat) :
    (natDigitsAux (f + 1) n).getLast? = some (digitChar (n % 10)) := by
  unfold natDigitsAux
  split
  · rename_i h
    simp [Nat.mod_eq_of_lt h]
  · simp

theorem intRenderChars_ne_nil (i : Int) : intRenderChars i ≠ [] := by
  intro hcontra
  unfold intRenderChars at hcontra
  exact natDigitsAux_ne_nil i.natAbs i.natAbs
    (List.append_eq_nil.mp hcontra).2

theorem intRenderChars_getLast (i : Int) :
    (intRenderChars i).getLast? = some (digitChar (i.natAbs % 10)) := by
  unfold intRenderChars natDigitsChars
  rw [List.getLast?_append_of_ne_nil _ (natDigitsAux_ne_nil i.natAbs i.natAbs)]
  exact natDigitsAux_getLast i.natAbs i.natAbs

theorem plantKey_shape (p : Plant) (k : List Char)
    (h : plantKeyChars p = some k) :
    ∃ c e, k = c ++ '-' :: e ∧ c ≠ [] ∧ e ≠ [] ∧
      ∃ m, e.getLast? = some (digitChar m) := by
  unfold plantKeyChars at h
  cases he : plantElevNorm p.elevation with
  | none => rw [he] at h; exact absurd h (by simp)
  | some elev =>
    rw [he] at h
    simp only at h
    split at h
    · rename_i hcond
      injection h with h
      obtain ⟨i, -, hiren⟩ := Option.map_eq_some'.mp
        (show (pyIntParse p.elevation).map intRenderChars = some elev from he)
      refine ⟨trimUpperChars p.county, elev, h.symm, hcond.1, hcond.2, ?_⟩
      rw [← hiren]
      exact ⟨_, intRenderChars_getLast i⟩
    · exact absurd h (by simp)

theorem firstDigitRun_digits :
    ∀ (cs ds : List Char), firstDigitRun cs = some ds →
      ∀ x ∈ ds, x.isDigit = true := by
  intro cs
  induction cs with
  | nil => intro ds h; simp [firstDigitRun] at h
  | cons c cs ih =>
    intro ds h x hx
    by_cases hc : c.isDigit
    · simp only [firstDigitRun, if_pos hc] at h
      injection h with h
      subst h
      rcases List.mem_cons.mp hx with rfl | hmem
      · exact hc
      · exact List.mem_takeWhile_imp hmem
    · simp only [firstDigitRun, if_neg hc] at h
      exact ih ds h x hx

theorem lkGet_lkAdd (m : List (List Char × List Plant)) (k : List Char)
    (p : Plant) (key : List Char) :
    lkGet (lkAdd m k p) key =
      lkGet m key ++ (if key = k then [p] else []) := by
  induction m with
  | nil =>
    by_cases h : key = k
    · subst h; simp [lkAdd, lkGet]
    · have h2 : ¬ k = key := fun hh => h hh.symm
      simp [lkAdd, lkGet, h, h2]
  | cons kv m ih =>
    obtain ⟨k2, l⟩ := kv
    by_cases hk : k2 = k
    · subst hk
      by_cases hkey : key = k2
      · subst hkey
        simp [lkAdd, lkGet]
      · have h2 : ¬ k2 = key := fun hh => hkey hh.symm
        simp [lkAdd, lkGet, h2, hkey]
    · by_cases hkey : key = k2
      · subst hkey
        simp [lkAdd, lkGet, hk]
      · have h2 : ¬ k2 = key := fun hh => hkey hh.symm
        simp [lkAdd, lkGet, hk, h2, ih]

theorem lkGet_buildAux (key : List Char) :
    ∀ (ps : List Plant) (m : List (List Char × List Plant)),
      lkGet (ps.foldl (fun m p =>
        match plantKeyChars p with
        | some k => lkAdd m k p
        | none => m) m) key =
      lkGet m key ++ ps.filter (fun p => plantKeyChars p = some key) := by
  intro ps
  induction ps with
  | nil => intro m; simp
  | cons p ps ih =>
    intro m
    rw [List.foldl_cons, ih]
    cases hk : plantKeyChars p with
    | none => simp [hk, List.filter_cons]
    | some k =>
      by_cases hkey : k = key
      · subst hkey
        simp [hk, List.filter_cons, lkGet_lkAdd, List.append_assoc]
      · have : ¬ key = k := fun hh => hkey hh.symm
        simp [hk, List.filter_cons, lkGet_lkAdd, hkey, this]

theorem lkGet_build (plants : List Plant) (key : List Char) :
    lkGet (buildPlantsLookup plants) key =
      plants.filter (fun p => plantKeyChars p = some key) := by
  have := lkGet_buildAux key plants []
  simpa [buildPlantsLookup, lkGet] using this

theorem lakeKey_invalid_no_match (l : Lake) (p : Plant)
    (hl : trimUpperChars l.county = [] ∨
      firstDigitRun l.elevation.data = none) :
    plantKeyChars p ≠ some (lakeKeyChars l) := by
  intro hp
  obtain ⟨c, e, hk, hc, he, m, hlast⟩ := plantKey_shape p _ hp
  by_cases hd : lakeElevDigits l.elevation = []
  · have h1 : (lakeKeyChars l).getLast? = some '-' := by
      unfold lakeKeyChars
      rw [hd]
      rw [List.getLast?_append_of_ne_nil _
        (show ('-' :: ([] : List Char)) ≠ [] by simp)]
      rfl
    have h2 : (lakeKeyChars l).getLast? = some (digitChar m) := by
      rw [hk, show c ++ '-' :: e = (c ++ ['-']) ++ e from by simp,
        List.getLast?_append_of_ne_nil _ he]
      exact hlast
    rw [h1] at h2
    injection h2 with h2
    exact digitChar_ne_dash m h2.symm
  · cases hl with
    | inl hcounty =>
      have hkey : lakeKeyChars l = '-' :: lakeElevDigits l.elevation := by
        unfold lakeKeyChars
        rw [hcounty]
        rfl
      rw [hkey] at hk
      cases c with
      | nil => exact hc rfl
      | cons c0 cr =>
        rw [List.cons_append] at hk
        injection hk with h1 h2
        have hmem : '-' ∈ lakeElevDigits l.elevation := by
          rw [h2]
          exact List.mem_append_right _ (List.mem_cons_self _ _)
        have hdig : ∀ x ∈ lakeElevDigits l.elevation, x.isDigit = true := by
          unfold lakeElevDigits
          cases hfd : firstDigitRun l.elevation.data with
          | none => simp
          | some ds => simpa using firstDigitRun_digits _ ds hfd
        have := hdig '-' hmem
        simp at this
    | inr hdr =>
      apply hd
      unfold lakeElevDigits
      rw [hdr]

/-- C4: the merger joins on the normalized county-elevation key: each lake
receives, in input order, exactly the plant records whose key equals its
own lookup key; a plant record with an empty county or an empty or
non-numeric elevation has no key and is attached to no lake; a lake with an
empty normalized county or a digitless elevation gets an empty list; the
merge is total (every input lake produces an output entry and no record
causes the merge of the others to fail). -/
theorem enrich_attaches_exact_matches :
    ∀ (lakes : List Lake) (plants : List Plant), EnrichSpec lakes plants := by
  intro lakes plants
  have hget : ∀ (i : Nat) (h : i < lakes.length),
      (enrich_data lakes plants)[i]? =
        some ⟨lakes.get ⟨i, h⟩,
          plants.filter (fun p => plantKeyChars p =
            some (lakeKeyChars (lakes.get ⟨i, h⟩)))⟩ := by
    intro i h
    simp only [enrich_data, List.getElem?_map]
    rw [List.getElem?_eq_getElem h]
    simp only [Option.map_some']
    rw [lkGet_build]
    rfl
  refine ⟨by simp [enrich_data], hget, ?_, ?_⟩
  · intro p hp hnone e he hmem
    simp only [enrich_data, List.mem_map] at he
    obtain ⟨l, -, rfl⟩ := he
    simp only at hmem
    rw [lkGet_build] at hmem
    have := (List.mem_filter.mp hmem).2
    rw [hnone] at this
    simp at this
  · intro i h hbad
    rw [hget i h]
    have hnil : plants.filter (fun p => plantKeyChars p =
        some (lakeKeyChars (lakes.get ⟨i, h⟩))) = [] := by
      apply List.filter_eq_nil_iff.mpr
      intro p hp
      simp only [decide_eq_true_eq]
      exact lakeKey_invalid_no_match _ p hbad
    rw [hnil]

theorem enrich_attaches_exact_matches_witness :
    EnrichSpec [⟨"Alpine", "u", "5", "3622 feet", "King", "47", "-121"⟩]
      [⟨"King ", "3622", [("species", "RBT")]⟩] :=
  enrich_attaches_exact_matches
    [⟨"Alpine", "u", "5", "3622 feet", "King", "47", "-121"⟩]
    [⟨"King ", "3622", [("species", "RBT")]⟩]

/-- C9: the merger adds only the `plants` field: the output has exactly one
record per input lake, in input order, and each output record's underlying
lake (name, url, acres, elevation, county, latitude, longitude) is the
input lake unchanged. -/
theorem enrich_preserves_lake_fields :
    ∀ (lakes : List Lake) (plants : List Plant),
      EnrichFrameSpec lakes plants := by
  intro lakes plants
  refine ⟨by simp [enrich_data], ?_⟩
  intro i h
  simp only [enrich_data, List.getElem?_map]
  rw [List.getElem?_eq_getElem h]
  simp

theorem enrich_preserves_lake_fields_witness :
    EnrichFrameSpec [⟨"Alpine", "u", "5", "3622 feet", "King", "47", "-121"⟩]
      [⟨"King ", "3622", [("species", "RBT")]⟩] :=
  enrich_preserves_lake_fields
    [⟨"Alpine", "u", "5", "3622 feet", "King", "47", "-121"⟩]
    [⟨"King ", "3622", [("species", "RBT")]⟩]

/-- C5 counterexample: rows do NOT always share the lake's scalar field
values.  `row.update(plant)` overwrites a scalar field whenever the event
object itself carries that key (real plant records carry `county`): a lake
with county `"King"` and one event `{"county": "KING"}` yields a row whose
`county` is the event's value, not the lake's. -/
theorem flatten_scalar_overwrite_cex :
    ¬ (∀ r ∈ flattenLake ⟨.str "Alpine", .null, .null, .null, .str "King",
        .null, .null, [[("county", JVal.str "KING")]]⟩,
      getVal r "county" = some (JVal.str "King")) := by
  decide

theorem getVal_setVal_ne (r : Row) (k k2 : String) (v : JVal)
    (h : k2 ≠ k) : getVal (setVal r k2 v) k = getVal r k := by
  induction r with
  | nil => rfl
  | cons kv r ih =>
    obtain ⟨a, w⟩ := kv
    simp only [setVal, List.map_cons]
    by_cases ha : a = k2
    · rw [if_pos (by simpa using ha)]
      show getVal ((k2, v) :: r.map _) k = getVal ((a, w) :: r) k
      simp only [getVal]
      rw [if_neg h, if_neg (by rw [ha]; exact h)]
      exact ih
    · rw [if_neg (by simpa using ha)]
      simp only [getVal]
      by_cases hak : a = k
      · rw [if_pos hak, if_pos hak]
      · rw [if_neg hak, if_neg hak]
        exact ih

theorem getVal_append_one (r : Row) (kv : String × JVal) (k : String)
    (h : kv.1 ≠ k) : getVal (r ++ [kv]) k = getVal r k := by
  induction r with
  | nil =>
    obtain ⟨a, w⟩ := kv
    have h2 : ¬ a = k := h
    simp [getVal, h2]
  | cons kv2 r ih =>
    obtain ⟨a2, w2⟩ := kv2
    simp only [List.cons_append, getVal]
    by_cases ha : a2 = k
    · rw [if_pos ha, if_pos ha]
    · rw [if_neg ha, if_neg ha]
      exact ih

theorem getVal_dictUpdate_not_mem (upd : Row) (k : String)
    (h : ∀ kv ∈ upd, kv.1 ≠ k) :
    ∀ base : Row, getVal (dictUpdate base upd) k = getVal base k := by
  induction upd with
  | nil => intro base; rfl
  | cons kv upd ih =>
    intro base
    rw [show dictUpdate base (kv :: upd) =
      dictUpdate (if rowHas base kv.1 then setVal base kv.1 kv.2
        else base ++ [kv]) upd from rfl]
    rw [ih (fun kv2 hm => h kv2 (List.mem_cons_of_mem _ hm)) _]
    by_cases hb : rowHas base kv.1
    · rw [if_pos hb,
        getVal_setVal_ne base k kv.1 kv.2 (h kv (List.mem_cons_self _ _))]
    · rw [if_neg hb, getVal_append_one base kv k (h kv (List.mem_cons_self _ _))]

theorem getVal_stockConv_ne (r : Row) (k : String) (h : k ≠ "stock_date") :
    getVal (stockConv r) k = getVal r k := by
  unfold stockConv
  cases hs : getVal r "stock_date" with
  | none => rfl
  | some v =>
    cases v with
    | null => rfl
    | str s =>
      by_cases hse : s = ""
      · simp [hse]
      · simp [hse, getVal_setVal_ne r k "stock_date"
          (JVal.str (convertStr s)) (fun hh => h hh.symm)]

theorem baseKeys_ne_stock : ∀ k ∈ baseKeys, k ≠ "stock_date" := by
  decide

theorem dictUpdate_nullFields (l : NLake) :
    dictUpdate (baseInfo l) nullPlantFields = baseInfo l ++ nullPlantFields :=
  rfl

/-- C5 amended: every lake yields at least one row (none is dropped); a
lake with zero events yields exactly the single row of its scalars plus the
five null event fields; a lake with k events yields exactly k rows, each
the lake's scalars updated with the event's own entries (the event's value
winning when the event object carries a scalar key, per `dict.update`); a
scalar field keeps the lake's value in every row whose event lacks that
key. -/
theorem flatten_rows_amended :
    (∀ l : NLake, FlattenSpec l) ∧
    (∀ lakes : List NLake,
      lakes.length ≤ (lakes.flatMap flattenLake).length) := by
  have main : ∀ l : NLake, FlattenSpec l := by
    intro l
    by_cases h : l.plants.isEmpty
    · have hp : l.plants = [] := by simpa [List.isEmpty_iff] using h
      refine ⟨by simp [flattenLake, h], by simp [flattenLake, h, hp],
        fun _ => ?_, fun hcon => absurd hp hcon, ?_⟩
      · simp only [flattenLake, if_pos h]
        rw [dictUpdate_nullFields]
      · intro p hpmem
        rw [hp] at hpmem
        exact absurd hpmem (List.not_mem_nil p)
    · have hp : l.plants ≠ [] := by simpa [List.isEmpty_iff] using h
      refine ⟨?_, ?_, fun hcon => absurd hcon hp,
        fun _ => by simp [flattenLake, h], ?_⟩
      · simp [flattenLake, h, hp]
      · have hlen : l.plants.length ≠ 0 := by
          simpa [List.length_eq_zero] using hp
        simp [flattenLake, h]
        omega
      · intro p hpmem k hk hnk
        rw [getVal_stockConv_ne _ _ (baseKeys_ne_stock k hk),
          getVal_dictUpdate_not_mem p k hnk _]
  refine ⟨main, ?_⟩
  intro lakes
  induction lakes with
  | nil => simp
  | cons l lakes ih =>
    have h1 : 0 < (flattenLake l).length := List.length_pos.mpr (main l).1
    simp only [List.flatMap_cons, List.length_append, List.length_cons]
    omega

theorem flatten_rows_amended_witness :
    FlattenSpec ⟨.str "Alpine", .null, .null, .null, .str "King", .null,
      .null, [[("species", JVal.str "RBT")]]⟩ :=
  flatten_rows_amended.1
    ⟨.str "Alpine", .null, .null, .null, .str "King", .null, .null,
      [[("species", JVal.str "RBT")]]⟩
